import Mathlib

/-!
Verification development for the podcast-downloader repository.

The Python sources (podcast_downloader/rss.py, downloaded.py, parameters.py,
configuration.py, utils.py) are shallowly embedded below.  Python strings are
modelled as `List Char` (`PyStr`), Python datetime objects as `PyDateTime`,
dictionaries as association lists, and the mutable download counter as
explicitly threaded state.  Unicode-specific behaviour (NFKC normalisation,
non-ASCII case mapping, non-ASCII whitespace) is modelled as the identity /
ASCII behaviour, which coincides with Python on the ASCII inputs used in the
theorems.
-/

set_option maxHeartbeats 1000000

abbrev PyStr := List Char

/-- Whitespace characters stripped by the Python str.strip method (ASCII part). -/
def pyIsSpace (c : Char) : Bool :=
  c == ' ' || c == '\t' || c == '\n' || c == '\r' || c.toNat == 11 || c.toNat == 12

/-- Model of the Python str.strip method: remove leading and trailing whitespace. -/
def pyStrip (s : PyStr) : PyStr :=
  ((s.dropWhile pyIsSpace).reverse.dropWhile pyIsSpace).reverse

/-- Fueled worker for `pyReplace`.  One unit of fuel is spent per output step;
since every step consumes at least one input character, fuel equal to the
length of the input is always sufficient. -/
def pyReplaceGo (pat rep : PyStr) : Nat → PyStr → PyStr
  | _, [] => []
  | 0, s => s
  | fuel + 1, c :: rest =>
    if pat ≠ [] ∧ pat.isPrefixOf (c :: rest) then
      rep ++ pyReplaceGo pat rep fuel ((c :: rest).drop pat.length)
    else
      c :: pyReplaceGo pat rep fuel rest

/-- Model of the Python str.replace method: replace every non-overlapping
occurrence of `pat` in `s` by `rep`, scanning left to right.  (Python treats an
empty pattern specially; all patterns used by the program are non-empty.) -/
def pyReplace (s pat rep : PyStr) : PyStr :=
  pyReplaceGo pat rep s.length s

/-- Decimal digits of a natural number. -/
def natDigits (n : Nat) : PyStr :=
  Nat.toDigits 10 n

/-- Zero-pad a number to two digits, as the %m, %d, %H, %M, %S strftime codes do. -/
def pad2 (n : Nat) : PyStr :=
  if n < 10 then '0' :: natDigits n else natDigits n

/-- Zero-pad a number to four digits, as the %Y strftime code does in CPython. -/
def pad4 (n : Nat) : PyStr :=
  List.replicate (4 - (natDigits n).length) '0' ++ natDigits n

/-- Model of a Python datetime.datetime value. -/
structure PyDateTime where
  year : Nat
  month : Nat
  day : Nat
  hour : Nat := 0
  minute : Nat := 0
  second : Nat := 0
deriving DecidableEq, Repr

/-- Expansion of a single strftime format code.  Codes not used by the program
are emitted verbatim (glibc-style fallback); the theorems only rely on the
listed codes and on the fact that characters other than the percent sign pass
through unchanged. -/
def strftimeCode (dt : PyDateTime) (c : Char) : PyStr :=
  if c = 'Y' then pad4 dt.year
  else if c = 'm' then pad2 dt.month
  else if c = 'd' then pad2 dt.day
  else if c = 'H' then pad2 dt.hour
  else if c = 'M' then pad2 dt.minute
  else if c = 'S' then pad2 dt.second
  else if c = '%' then ['%']
  else ['%', c]

/-- Model of the Python datetime.strftime method: percent-introduced codes are
expanded, every other character is copied verbatim. -/
def strftime (dt : PyDateTime) : PyStr → PyStr
  | [] => []
  | [c] => if c = '%' then ['%'] else [c]
  | c :: c2 :: rest =>
    if c = '%' then strftimeCode dt c2 ++ strftime dt rest
    else c :: strftime dt (c2 :: rest)

/-- The RSSEntity dataclass from rss.py: one downloadable episode. -/
structure RSSEntity where
  published_date : PyDateTime
  title : PyStr
  type : PyStr
  link : PyStr
deriving DecidableEq, Repr

/-- Characters removed by sanitize_for_filename in rss.py: control characters
and the reserved filename characters. -/
def isForbiddenFilenameChar (c : Char) : Bool :=
  c.toNat ≤ 0x1F || c.toNat == 0x7F ||
  c == '/' || c == '\\' || c == ':' || c == '<' || c == '>' ||
  c == '*' || c == '"' || c == '?' || c == '|'

/-- Embedding of sanitize_for_filename from rss.py.  The NFKC normalisation
step is modelled as the identity, which is exact for strings without Unicode
compatibility characters (all titles in the theorems are ASCII). -/
def sanitize_for_filename (value : PyStr) : PyStr :=
  pyStrip (value.map (fun c => if isForbiddenFilenameChar c then ' ' else c))

/-- Split a string at the last occurrence of `ch`: returns the parts before and
after that occurrence, or none if `ch` does not occur. -/
def lastSplitOn (ch : Char) : PyStr → Option (PyStr × PyStr)
  | [] => none
  | c :: rest =>
    match lastSplitOn ch rest with
    | some (b, a) => some (c :: b, a)
    | none => if c = ch then some ([], rest) else none

/-- Model of the Python str.rpartition method at the dot character, as used by
limit_file_name: (head, separator, tail). -/
def pyRPartitionDot (s : PyStr) : PyStr × PyStr × PyStr :=
  match lastSplitOn '.' s with
  | some (b, a) => (b, ['.'], a)
  | none => ([], [], s)

/-- Python slice s[:k] for an integer k (negative indices count from the end,
with clamping). -/
def pySliceUpto (k : Int) (s : PyStr) : PyStr :=
  if 0 ≤ k then s.take k.toNat else s.take (s.length - (-k).toNat)

/-- Python slice s[k:] for an integer k (negative indices count from the end,
with clamping). -/
def pySliceFrom (k : Int) (s : PyStr) : PyStr :=
  if 0 ≤ k then s.drop k.toNat else s.drop (s.length - (-k).toNat)

/-- Embedding of limit_file_name from rss.py: truncate a filename to a maximum
length, keeping the extension when possible. -/
def limit_file_name (maximum_length : Int) (file_name : PyStr) : PyStr :=
  if (file_name.length : Int) ≤ maximum_length then file_name
  else
    let parts := pyRPartitionDot file_name
    let name_part := parts.1
    let extension := parts.2.2
    if extension = [] ∨ (extension.length : Int) > maximum_length then
      pySliceUpto maximum_length file_name
    else
      let available_length_for_name : Int := maximum_length - extension.length - 1
      if available_length_for_name < 0 then
        pySliceFrom (-maximum_length) file_name
      else
        pySliceUpto available_length_for_name name_part ++ '.' :: extension

/-- Strip the query string from a link, as _parse_url_path does: keep the part
before the last question mark, if any. -/
def stripQuery (link : PyStr) : PyStr :=
  match lastSplitOn '?' link with
  | some (b, _) => b
  | none => link

/-- Drop everything up to and including the first scheme separator in a URL;
none when the separator does not occur. -/
def dropThroughSchemeSep : PyStr → Option PyStr
  | [] => none
  | ':' :: '/' :: '/' :: rest => some rest
  | _ :: rest => dropThroughSchemeSep rest

/-- Model of urlparse(link).path for the absolute URLs the program handles:
the part of the URL from the first slash after the authority.  A link without
a scheme separator is treated as a bare path. -/
def urlParsePath (link : PyStr) : PyStr :=
  match dropThroughSchemeSep link with
  | some afterScheme => afterScheme.dropWhile (fun c => !(c == '/'))
  | none => link

/-- The final path component, as pathlib computes it (text after the last slash). -/
def pathName (p : PyStr) : PyStr :=
  match lastSplitOn '/' p with
  | some (_, a) => a
  | none => p

/-- Position of the last dot of a name, following the pathlib stem and suffix
rule: only a dot that is neither the first nor the last character counts. -/
def pathLastDotIndex (name : PyStr) : Option Nat :=
  match lastSplitOn '.' name with
  | some (b, a) => if 0 < b.length ∧ a ≠ [] then some b.length else none
  | none => none

/-- pathlib stem of a path: the final component without its extension. -/
def pathStem (p : PyStr) : PyStr :=
  let name := pathName p
  match pathLastDotIndex name with
  | some i => name.take i
  | none => name

/-- pathlib suffix of a path: the extension of the final component, including
the leading dot, or empty. -/
def pathSuffix (p : PyStr) : PyStr :=
  let name := pathName p
  match pathLastDotIndex name with
  | some i => name.drop i
  | none => []

/-- Embedding of link_to_file_name from rss.py: stem of the URL path, lower-cased. -/
def link_to_file_name (link : PyStr) : PyStr :=
  (pathStem (urlParsePath (stripQuery link))).map Char.toLower

/-- Embedding of link_to_extension from rss.py: suffix of the URL path,
lower-cased, with leading dots stripped. -/
def link_to_extension (link : PyStr) : PyStr :=
  ((pathSuffix (urlParsePath (stripQuery link))).map Char.toLower).dropWhile
    (fun c => c == '.')

/-- The literal text of the custom date token opener used by rss.py. -/
def dateTokenHead : PyStr := "%publish_date:".toList

/-- Try to match the regular expression of the custom date token at the start
of `s`: the token opener, one or more characters other than the percent sign,
then a percent sign.  Returns the format group on success.  Greedy matching of
the character class coincides with takeWhile because the class excludes the
character that must follow it. -/
def matchDateGroup (s : PyStr) : Option PyStr :=
  if dateTokenHead.isPrefixOf s then
    let rest := s.drop dateTokenHead.length
    let grp := rest.takeWhile (fun c => !(c == '%'))
    if grp ≠ [] ∧ grp.length < rest.length then some grp else none
  else none

/-- Fueled worker modelling re.sub for the custom date token: scan left to
right, replace each match by the strftime expansion of its format group, and
continue after the match. -/
def substDateTokensGo (dt : PyDateTime) : Nat → PyStr → PyStr
  | _, [] => []
  | 0, s => s
  | fuel + 1, c :: rest =>
    match matchDateGroup (c :: rest) with
    | some grp =>
      strftime dt grp ++
        substDateTokensGo dt fuel ((c :: rest).drop (dateTokenHead.length + grp.length + 1))
    | none => c :: substDateTokensGo dt fuel rest

/-- Replacement of every custom date token in a template, as the re.sub call in
file_template_to_file_name performs it. -/
def substDateTokens (dt : PyDateTime) (s : PyStr) : PyStr :=
  substDateTokensGo dt s.length s

/-- Embedding of file_template_to_file_name from rss.py: expand the custom date
tokens, then the four fixed placeholders in their dictionary order, then strip
the result. -/
def file_template_to_file_name (name_template : PyStr) (entity : RSSEntity) : PyStr :=
  let t0 := substDateTokens entity.published_date name_template
  let t1 := pyReplace t0 "%title%".toList (sanitize_for_filename entity.title)
  let t2 := pyReplace t1 "%file_name%".toList (link_to_file_name entity.link)
  let t3 := pyReplace t2 "%file_extension%".toList (link_to_extension entity.link)
  let t4 := pyReplace t3 "%publish_date%".toList (strftime entity.published_date "%Y%m%d".toList)
  pyStrip t4

/-- Embedding of build_only_new_entities from rss.py: take entities from the
newest-first list until the one whose rendered name equals `from_file`.  The
boundary is an optional string because the Python variable can hold None; the
comparison name != from_file is modelled on lifted options, which agrees with
Python for both a string and a None boundary. -/
def build_only_new_entities (to_name_function : RSSEntity → PyStr)
    (from_file : Option PyStr) (entities : List RSSEntity) : List RSSEntity :=
  entities.takeWhile (fun entity => !(some (to_name_function entity) == from_file))

/-- Embedding of only_last_n_entities from rss.py: the first n entities. -/
def only_last_n_entities (n : Nat) (entities : List RSSEntity) : List RSSEntity :=
  entities.take n

/-- Calendar date of a datetime, as the Python date method returns it. -/
def pyDate (d : PyDateTime) : Nat × Nat × Nat :=
  (d.year, d.month, d.day)

/-- Lexicographic comparison of calendar dates, as Python compares date objects. -/
def dateLeB (a b : Nat × Nat × Nat) : Bool :=
  a.1 < b.1 || (a.1 == b.1 && (a.2.1 < b.2.1 || (a.2.1 == b.2.1 && a.2.2 ≤ b.2.2)))

/-- Embedding of is_entity_newer from rss.py: date-only comparison, true when
the publication date is on or after `from_date`. -/
def is_entity_newer (from_date : PyDateTime) (entity : RSSEntity) : Bool :=
  dateLeB (pyDate from_date) (pyDate entity.published_date)

/-- Embedding of get_last_downloaded_file_before_gap from downloaded.py,
written with the tracked last-seen file as an explicit accumulator. -/
def gapScanGo (downloaded : List PyStr) : Option PyStr → List PyStr → Option PyStr
  | last_seen, [] => last_seen
  | last_seen, f :: rest =>
    if f ∈ downloaded then gapScanGo downloaded (some f) rest
    else
      match last_seen with
      | some l => some l
      | none => gapScanGo downloaded none rest

/-- Embedding of get_last_downloaded_file_before_gap from downloaded.py: find
the last downloaded file before the first gap in the oldest-first feed list. -/
def get_last_downloaded_file_before_gap (feed_files : List PyStr)
    (downloaded_files : List PyStr) : Option PyStr :=
  gapScanGo downloaded_files none feed_files

/-- Statement of the gap scan taken from the specification text: skip feed
files until the first one on disk, then the boundary is the last file of the
following consecutive run of on-disk files (the most recent on-disk file seen
before the first gap, or the newest on-disk file encountered when no gap
follows); none when no feed file is on disk. -/
def gapScanSpec (feed_files : List PyStr) (downloaded_files : List PyStr) : Option PyStr :=
  ((feed_files.dropWhile (fun f => !(decide (f ∈ downloaded_files)))).takeWhile
    (fun f => decide (f ∈ downloaded_files))).getLast?

/-- Leap year rule of the proleptic Gregorian calendar used by Python datetime. -/
def isLeapYear (y : Nat) : Bool :=
  y % 4 == 0 && (y % 100 != 0 || y % 400 == 0)

/-- Number of days of a month in a given year. -/
def daysInMonth (y m : Nat) : Nat :=
  if m = 2 then (if isLeapYear y then 29 else 28)
  else if m = 4 ∨ m = 6 ∨ m = 9 ∨ m = 11 then 30
  else 31

/-- The previous calendar day, keeping the time of day. -/
def prevDay (d : PyDateTime) : PyDateTime :=
  if d.day > 1 then { d with day := d.day - 1 }
  else if d.month > 1 then { d with month := d.month - 1, day := daysInMonth d.year (d.month - 1) }
  else { d with year := d.year - 1, month := 12, day := 31 }

/-- Subtraction of a number of days from a datetime, as datetime minus timedelta. -/
def subDays : Nat → PyDateTime → PyDateTime
  | 0, d => d
  | n + 1, d => subDays n (prevDay d)

/-- Embedding of get_n_age_date from configuration.py: the date `day_number`
days before `from_date`. -/
def get_n_age_date (day_number : Nat) (from_date : PyDateTime) : PyDateTime :=
  subDays day_number from_date

/-- The WEEK_DAYS tuple from configuration.py. -/
def WEEK_DAYS : List PyStr :=
  ["Monday".toList, "Tuesday".toList, "Wednesday".toList, "Thursday".toList,
   "Friday".toList, "Saturday".toList, "Sunday".toList]

/-- Day of the week with Monday as zero, as the Python weekday method returns
it, computed with the Sakamoto formula. -/
def weekdayPy (d : PyDateTime) : Nat :=
  let t := [0, 3, 2, 5, 0, 3, 5, 1, 4, 6, 2, 4]
  let y := if d.month < 3 then d.year - 1 else d.year
  let w := (y + y / 4 + y / 400 + t.getD (d.month - 1) 0 + d.day - y / 100) % 7
  (w + 6) % 7

/-- Embedding of get_week_day from configuration.py: the most recent strictly
past occurrence of the given weekday.  The label is guaranteed by the caller to
be a member of WEEK_DAYS; the fallback index zero is unreachable there. -/
def get_week_day (weekday_label : PyStr) (from_date : PyDateTime) : PyDateTime :=
  let target := (WEEK_DAYS.findIdx? (fun w => w == weekday_label)).getD 0
  let days_ago := ((weekdayPy from_date + 7) - target) % 7
  let days_ago := if days_ago = 0 then 7 else days_ago
  subDays days_ago from_date

/-- Embedding of get_nth_day from configuration.py: the most recent occurrence
of the given day of the month, rolling into the previous month when needed.
As in the source, a day number invalid for the landing month is not validated. -/
def get_nth_day (day_of_month : Nat) (from_date : PyDateTime) : PyDateTime :=
  if from_date.day ≥ day_of_month then { from_date with day := day_of_month }
  else
    let last_day_of_previous_month := prevDay { from_date with day := 1 }
    { last_day_of_previous_month with day := day_of_month }

/-- Parse of a decimal numeral as the Python int constructor performs it on the
digit-only inputs the program passes; an error on anything else. -/
def pyInt (s : PyStr) : Except PyStr Nat :=
  if s ≠ [] ∧ s.all Char.isDigit then
    Except.ok (s.foldl (fun acc c => acc * 10 + (c.toNat - '0'.toNat)) 0)
  else Except.error ("invalid literal for int".toList)

/-- Model of the Python str.capitalize method for ASCII strings. -/
def pyCapitalize (s : PyStr) : PyStr :=
  match s with
  | [] => []
  | c :: rest => c.toUpper :: rest.map Char.toLower

/-- The short weekday table of parse_day_label. -/
def shortWeekdays : List (PyStr × PyStr) :=
  [("Mon".toList, "Monday".toList), ("Tue".toList, "Tuesday".toList),
   ("Wed".toList, "Wednesday".toList), ("Thu".toList, "Thursday".toList),
   ("Fri".toList, "Friday".toList), ("Sat".toList, "Saturday".toList),
   ("Sun".toList, "Sunday".toList)]

/-- Embedding of parse_day_label from configuration.py: a day-of-month number
or a capitalised weekday name; ValueError is modelled as an error value. -/
def parse_day_label (raw_label : PyStr) : Except PyStr (PyStr ⊕ Nat) :=
  let label := raw_label.map Char.toLower
  if ("st".toList.isSuffixOf label ∨ "nd".toList.isSuffixOf label ∨
      "rd".toList.isSuffixOf label ∨ "th".toList.isSuffixOf label) then
    match pyInt (label.take (label.length - 2)) with
    | Except.ok n => Except.ok (Sum.inr n)
    | Except.error e => Except.error e
  else if label ≠ [] ∧ label.all Char.isDigit then
    match pyInt label with
    | Except.ok n => Except.ok (Sum.inr n)
    | Except.error e => Except.error e
  else
    let capitalize_raw_label := pyCapitalize raw_label
    if capitalize_raw_label ∈ WEEK_DAYS then Except.ok (Sum.inl capitalize_raw_label)
    else
      match shortWeekdays.find? (fun p => p.1 == capitalize_raw_label) with
      | some p => Except.ok (Sum.inl p.2)
      | none => Except.error ("Cannot parse day label".toList)

/-- Embedding of get_label_to_date from configuration.py: dispatch a parsed day
label to the matching date computation; TypeError is modelled as an error value. -/
def get_label_to_date (day_label : PyStr ⊕ Nat) :
    Except PyStr (PyDateTime → PyDateTime) :=
  match day_label with
  | Sum.inl s =>
    if s ∈ WEEK_DAYS then Except.ok (get_week_day s)
    else Except.error ("Unsupported label type for date calculation".toList)
  | Sum.inr n => Except.ok (get_nth_day n)

/-- A Python dictionary modelled as an association list with string keys; the
first entry of a key is its binding (Python dictionaries keep keys unique). -/
abbrev PyDict (V : Type) := List (String × V)

/-- Dictionary lookup: the value of the first entry with the given key. -/
def dictGet? {V : Type} (d : PyDict V) (k : String) : Option V :=
  (d.find? (fun p => p.1 == k)).map (fun p => p.2)

/-- Dictionary assignment: overwrite the first entry with the given key, or
append a new entry, as the Python item assignment does. -/
def dictSet {V : Type} (d : PyDict V) (k : String) (v : V) : PyDict V :=
  match d with
  | [] => [(k, v)]
  | (k0, v0) :: rest =>
    if k0 = k then (k, v) :: rest else (k0, v0) :: dictSet rest k v

/-- Model of the Python dict.update method: assign every entry of `other`. -/
def dictUpdate {V : Type} (d other : PyDict V) : PyDict V :=
  other.foldl (fun acc p => dictSet acc p.1 p.2) d

/-- Embedding of merge_parameters_collection from parameters.py, value level:
copy the default dictionary, then update it with each override in turn. -/
def merge_parameters_collection {V : Type} (default : PyDict V)
    (others : List (PyDict V)) : PyDict V :=
  others.foldl dictUpdate default

/-- A Python heap fragment: dictionaries addressed by allocation index.  This
carrier makes object identity and mutation observable, so that frame
properties of merge_parameters_collection are statable. -/
abbrev Heap (V : Type) := List (PyDict V)

/-- Read of a heap address; a dangling address reads as an empty dictionary. -/
def heapGetD {V : Type} (h : Heap V) (a : Nat) : PyDict V :=
  (h[a]?).getD []

/-- Write of a heap address. -/
def heapSet {V : Type} (h : Heap V) (a : Nat) (d : PyDict V) : Heap V :=
  h.set a d

/-- Embedding of merge_parameters_collection from parameters.py, heap level:
allocate a fresh dictionary holding a copy of the default one, then update the
fresh dictionary in place with each override dictionary in turn, returning the
new heap and the fresh address. -/
def merge_parameters_collection_heap {V : Type} (h : Heap V) (defaultAddr : Nat)
    (otherAddrs : List Nat) : Heap V × Nat :=
  let resultAddr := h.length
  let h0 := h ++ [heapGetD h defaultAddr]
  let h1 := otherAddrs.foldl
    (fun hh a => heapSet hh resultAddr (dictUpdate (heapGetD hh resultAddr) (heapGetD hh a)))
    h0
  (h1, resultAddr)

/-- Match of an anchored regular expression of the shape
literal-head, one or more digits, literal-tail against a whole string, as the
re.match calls of configuration_to_function_on_empty_directory use it.
Returns the numeric value of the digit group on success. -/
def matchDigitsBetween (head tail s : PyStr) : Option Nat :=
  if head.isPrefixOf s then
    let rest := s.drop head.length
    if tail.isSuffixOf rest then
      let mid := rest.take (rest.length - tail.length)
      if mid ≠ [] ∧ mid.all Char.isDigit then
        some (mid.foldl (fun acc c => acc * 10 + (c.toNat - '0'.toNat)) 0)
      else none
    else none
  else none

/-- Embedding of configuration_to_function_on_empty_directory from utils.py:
resolve the empty-directory policy string to a filter on the newest-first
entity list.  Raised exceptions are modelled as error values, the mutable
datetime.now() read as the explicit `local_time` argument, and the iterator
combinators islice and filter as their list counterparts. -/
def configuration_to_function_on_empty_directory (configuration_value : PyStr)
    (last_run_date : Option PyDateTime) (local_time : PyDateTime) :
    Except PyStr (List RSSEntity → List RSSEntity) :=
  if configuration_value = "download_last".toList then
    Except.ok (only_last_n_entities 1)
  else if configuration_value = "download_all_from_feed".toList then
    Except.ok (fun source => source)
  else if configuration_value = "download_since_last_run".toList then
    match last_run_date with
    | some d => Except.ok (List.filter (fun e => is_entity_newer d e))
    | none => Except.error ("Missing last run marker file".toList)
  else
    match matchDigitsBetween "download_from_".toList "_days".toList configuration_value with
    | some n =>
      Except.ok (List.filter (fun e => is_entity_newer (get_n_age_date n local_time) e))
    | none =>
      match matchDigitsBetween "download_last_".toList "_episodes".toList configuration_value with
      | some n => Except.ok (only_last_n_entities n)
      | none =>
        if "download_from_".toList.isPrefixOf configuration_value then
          match parse_day_label (configuration_value.drop "download_from_".toList.length) with
          | Except.error e => Except.error e
          | Except.ok day_label =>
            match get_label_to_date day_label with
            | Except.error e => Except.error e
            | Except.ok date_func =>
              Except.ok (List.filter (fun e => is_entity_newer (date_func local_time) e))
        else
          Except.error ("Unrecognized if_directory_empty value".toList)

/-- Embedding of the selection portion of process_podcast_feed from utils.py
(lines building all_feed_files through missing_files_links): render every entry
name, reverse to oldest-first, and choose the boundary and the missing list
according to the on-disk state and the fill_up_gaps flag.  The platform
dependent file length limit is the explicit `file_length_limit` argument, and
an exception raised while resolving the empty-directory policy is an error
value. -/
def process_podcast_feed_selection (file_name_template : PyStr)
    (file_length_limit : Int) (if_directory_empty : PyStr)
    (last_run_date : Option PyDateTime) (local_time : PyDateTime)
    (fill_up_gaps : Bool) (all_feed_entries : List RSSEntity)
    (downloaded_files : List PyStr) :
    Except PyStr (Option PyStr × List RSSEntity) :=
  let to_name_function := fun e => file_template_to_file_name file_name_template e
  let to_real_file_name := fun e => limit_file_name file_length_limit (to_name_function e)
  let all_feed_files := (all_feed_entries.map to_real_file_name).reverse
  if downloaded_files.isEmpty then
    match configuration_to_function_on_empty_directory if_directory_empty
        last_run_date local_time with
    | Except.error e => Except.error e
    | Except.ok download_limiter => Except.ok (none, download_limiter all_feed_entries)
  else
    let current_downloaded_in_feed :=
      all_feed_files.filter (fun f => decide (f ∈ downloaded_files))
    if current_downloaded_in_feed.isEmpty then
      Except.ok (none, all_feed_entries)
    else
      let last_downloaded_file :=
        if fill_up_gaps then
          get_last_downloaded_file_before_gap all_feed_files current_downloaded_in_feed
        else current_downloaded_in_feed.getLast?
      Except.ok (last_downloaded_file,
        build_only_new_entities to_name_function last_downloaded_file all_feed_entries)

/-- Run state threaded through the download loops: the mutable global
downloads_limit entry of the configuration dictionary, and the log of actual
downloads performed (one entry per invocation of the transfer collaborator). -/
structure DownloadState where
  limit : Int
  log : List RSSEntity
deriving DecidableEq, Repr

/-- Embedding of the download loop of process_podcast_feed from utils.py: walk
the missing episodes (already reversed to oldest-first by the caller), break
when the global limit is exhausted, perform and count the download, and
decrement the global limit only when an actual download was performed.  The
sleep call and the log output are effect-free for this state and are omitted. -/
def feed_download_loop (dry_run : Bool) :
    DownloadState → Nat → List RSSEntity → DownloadState × Nat
  | st, stats_downloads, [] => (st, stats_downloads)
  | st, stats_downloads, rss_entry :: rest =>
    if st.limit ≤ 0 then (st, stats_downloads)
    else
      let st' := if dry_run then st
        else { limit := st.limit - 1, log := st.log ++ [rss_entry] }
      feed_download_loop dry_run st' (stats_downloads + 1) rest

/-- Download phase of process_podcast_feed for one feed: the missing list is
newest-first and the loop walks it reversed, as the source does. -/
def process_podcast_feed_downloads (dry_run : Bool) (st : DownloadState)
    (missing_files_links : List RSSEntity) : DownloadState × Nat :=
  feed_download_loop dry_run st 0 missing_files_links.reverse

/-- Embedding of the per-feed loop of main from utils.py, restricted to the
download phase: every feed in the configuration is visited in order and its
downloads statistic collected, with the global state threaded through. -/
def run_feeds (dry_run : Bool) :
    DownloadState → List (List RSSEntity) → DownloadState × List Nat
  | st, [] => (st, [])
  | st, missing :: rest =>
    let r := process_podcast_feed_downloads dry_run st missing
    let rr := run_feeds dry_run r.1 rest
    (rr.1, r.2 :: rr.2)

/-- Effective per-feed configuration as main and setup_configuration compute
it: the defaults updated by the configuration file, then by vars(args) -- the
full command line namespace, including entries holding None for options not
given -- and finally by the per-feed dictionary. -/
def effective_feed_configuration {V : Type} (defaults config_file cli_vars
    rss_source : PyDict V) : PyDict V :=
  merge_parameters_collection
    (merge_parameters_collection defaults [config_file, cli_vars]) [rss_source]

/-- An episode used by the concrete selection scenarios; the title renders to
the on-disk filename under the %title% template. -/
def mkEpisode (t : String) (day : Nat) : RSSEntity :=
  { published_date := { year := 2023, month := 6, day := day }
    title := t.toList
    type := "audio/mpeg".toList
    link := ("http://example.com/" ++ t ++ ".mp3").toList }

/-- The five episodes of the gap scenario, E1 oldest through E5 newest. -/
def epE1 : RSSEntity := mkEpisode "E1" 1
def epE2 : RSSEntity := mkEpisode "E2" 2
def epE3 : RSSEntity := mkEpisode "E3" 3
def epE4 : RSSEntity := mkEpisode "E4" 4
def epE5 : RSSEntity := mkEpisode "E5" 5

/-- The newest-first feed entry list of the gap scenario. -/
def gapFeedEntries : List RSSEntity := [epE5, epE4, epE3, epE2, epE1]

/-- The on-disk file set of the gap scenario: E3 is missing. -/
def gapDiskFiles : List PyStr :=
  ["E5".toList, "E4".toList, "E2".toList, "E1".toList]

/-! Helper lemmas about the gap scan. -/

theorem gapScanGo_cons_mem {disk : List PyStr} {f : PyStr} (hf : f ∈ disk)
    (last : Option PyStr) (rest : List PyStr) :
    gapScanGo disk last (f :: rest) = gapScanGo disk (some f) rest := by
  simp [gapScanGo, if_pos hf]

theorem gapScanGo_cons_not_mem_some {disk : List PyStr} {f : PyStr}
    (hf : f ∉ disk) (l : PyStr) (rest : List PyStr) :
    gapScanGo disk (some l) (f :: rest) = some l := by
  simp [gapScanGo, if_neg hf]

theorem gapScanGo_cons_not_mem_none {disk : List PyStr} {f : PyStr}
    (hf : f ∉ disk) (rest : List PyStr) :
    gapScanGo disk none (f :: rest) = gapScanGo disk none rest := by
  simp [gapScanGo, if_neg hf]

theorem gapScanGo_some (disk : List PyStr) :
    ∀ (l : List PyStr) (x : PyStr),
      gapScanGo disk (some x) l
        = some (((l.takeWhile (fun f => decide (f ∈ disk))).getLast?).getD x)
  | [], x => rfl
  | f :: rest, x => by
    by_cases hf : f ∈ disk
    · rw [gapScanGo_cons_mem hf, gapScanGo_some disk rest f]
      have h2 : (f :: rest).takeWhile (fun f => decide (f ∈ disk))
          = f :: rest.takeWhile (fun f => decide (f ∈ disk)) := by
        simp [List.takeWhile_cons, hf]
      rw [h2, List.getLast?_cons]
      simp
    · rw [gapScanGo_cons_not_mem_some hf]
      have h2 : (f :: rest).takeWhile (fun f => decide (f ∈ disk)) = [] := by
        simp [List.takeWhile_cons, hf]
      rw [h2]
      rfl

theorem gap_scan_eq_spec (files disk : List PyStr) :
    get_last_downloaded_file_before_gap files disk = gapScanSpec files disk := by
  induction files with
  | nil => rfl
  | cons f rest ih =>
    by_cases hf : f ∈ disk
    · rw [get_last_downloaded_file_before_gap, gapScanGo_cons_mem hf,
        gapScanGo_some disk rest f]
      have hd : (f :: rest).dropWhile (fun f => !(decide (f ∈ disk))) = f :: rest := by
        simp [List.dropWhile_cons, hf]
      have ht : (f :: rest).takeWhile (fun f => decide (f ∈ disk))
          = f :: rest.takeWhile (fun f => decide (f ∈ disk)) := by
        simp [List.takeWhile_cons, hf]
      rw [gapScanSpec, hd, ht, List.getLast?_cons]
    · rw [get_last_downloaded_file_before_gap, gapScanGo_cons_not_mem_none hf]
      have hd : (f :: rest).dropWhile (fun f => !(decide (f ∈ disk)))
          = rest.dropWhile (fun f => !(decide (f ∈ disk))) := by
        simp [List.dropWhile_cons, hf]
      rw [gapScanSpec, hd]
      exact ih

theorem gapScanGo_locality (disk : List PyStr) (g : PyStr) (hg : g ∉ disk) :
    ∀ (a b : List PyStr) (last : Option PyStr),
      (last ≠ none ∨ ∃ x ∈ a, x ∈ disk) →
      gapScanGo disk last (a ++ g :: b) = gapScanGo disk last (a ++ [g])
  | [], b, last, h => by
    cases last with
    | some l =>
      rw [List.nil_append, List.nil_append, gapScanGo_cons_not_mem_some hg,
        gapScanGo_cons_not_mem_some hg]
    | none =>
      rcases h with h | ⟨x, hx, _⟩
      · exact absurd rfl h
      · exact absurd hx (List.not_mem_nil x)
  | f :: a', b, last, h => by
    by_cases hf : f ∈ disk
    · rw [List.cons_append, List.cons_append, gapScanGo_cons_mem hf,
        gapScanGo_cons_mem hf]
      exact gapScanGo_locality disk g hg a' b (some f) (Or.inl (by simp))
    · cases last with
      | some l =>
        rw [List.cons_append, List.cons_append, gapScanGo_cons_not_mem_some hf,
          gapScanGo_cons_not_mem_some hf]
      | none =>
        rw [List.cons_append, List.cons_append, gapScanGo_cons_not_mem_none hf,
          gapScanGo_cons_not_mem_none hf]
        rcases h with h | ⟨x, hx, hxd⟩
        · exact absurd rfl h
        · rcases List.mem_cons.mp hx with rfl | hx'
          · exact absurd hxd hf
          · exact gapScanGo_locality disk g hg a' b none (Or.inr ⟨x, hx', hxd⟩)

theorem gapScanGo_mem (disk : List PyStr) :
    ∀ (files : List PyStr) (last : Option PyStr),
      (∀ l, last = some l → l ∈ disk) →
      (last = none → ∃ f ∈ files, f ∈ disk) →
      ∃ x, gapScanGo disk last files = some x ∧ x ∈ disk
  | [], last, hinv, hne => by
    cases last with
    | some l => exact ⟨l, rfl, hinv l rfl⟩
    | none =>
      rcases hne rfl with ⟨f, hf, _⟩
      exact absurd hf (List.not_mem_nil f)
  | f :: rest, last, hinv, hne => by
    by_cases hf : f ∈ disk
    · rw [gapScanGo_cons_mem hf]
      exact gapScanGo_mem disk rest (some f)
        (fun l hl => by cases hl; exact hf) (fun h => by cases h)
    · cases last with
      | some l =>
        refine ⟨l, ?_, hinv l rfl⟩
        rw [gapScanGo_cons_not_mem_some hf]
      | none =>
        rw [gapScanGo_cons_not_mem_none hf]
        refine gapScanGo_mem disk rest none (fun l hl => by cases hl) (fun _ => ?_)
        rcases hne rfl with ⟨x, hx, hxd⟩
        rcases List.mem_cons.mp hx with rfl | hx'
        · exact absurd hxd hf
        · exact ⟨x, hx', hxd⟩

/-- C2: the gap scan agrees with the specified walk: it skips feed files until
the first on-disk one, returns the most recent on-disk file of the following
consecutive run (the file before the first gap), never looks beyond the first
gap, and returns the newest on-disk file encountered when no gap follows.  In
the concrete scenario (feed E5..E1 newest-first, disk missing E3) the
fill-up-gaps selection yields boundary E2 and missing episodes E5, E4, E3. -/
theorem C2_gap_scan_correct :
    (∀ (files disk : List PyStr),
      get_last_downloaded_file_before_gap files disk = gapScanSpec files disk)
    ∧ (∀ (a : List PyStr) (g : PyStr) (b disk : List PyStr),
        g ∉ disk → (∃ x ∈ a, x ∈ disk) →
        get_last_downloaded_file_before_gap (a ++ g :: b) disk
          = get_last_downloaded_file_before_gap (a ++ [g]) disk)
    ∧ process_podcast_feed_selection "%title%".toList 255 "download_last".toList
        none { year := 2023, month := 6, day := 6 } true gapFeedEntries gapDiskFiles
      = Except.ok (some "E2".toList, [epE5, epE4, epE3]) := by
  refine ⟨gap_scan_eq_spec, ?_, by rfl⟩
  intro a g b disk hg hex
  exact gapScanGo_locality disk g hg a b none (Or.inr hex)

/-- Witness for C2: the locality part applied at a concrete gap list. -/
theorem C2_gap_scan_correct_witness :
    get_last_downloaded_file_before_gap
        (["E1".toList] ++ "X".toList :: ["E3".toList]) ["E1".toList]
      = get_last_downloaded_file_before_gap (["E1".toList] ++ ["X".toList])
        ["E1".toList] :=
  C2_gap_scan_correct.2.1 ["E1".toList] "X".toList ["E3".toList] ["E1".toList]
    (by decide) ⟨"E1".toList, by decide, by decide⟩

/-- C9: whenever some feed file is in the downloaded collection, the gap scan
returns a real filename, and that filename is a member of the downloaded
collection; the None result is unreachable under this precondition. -/
theorem C9_gap_scan_total_on_overlap (feed_files downloaded_files : List PyStr)
    (h : ∃ f ∈ feed_files, f ∈ downloaded_files) :
    ∃ x, get_last_downloaded_file_before_gap feed_files downloaded_files = some x
      ∧ x ∈ downloaded_files :=
  gapScanGo_mem downloaded_files feed_files none (fun _ hl => by cases hl)
    (fun _ => h)

/-- Witness for C9 at the concrete gap scenario. -/
theorem C9_gap_scan_total_on_overlap_witness :
    ∃ x, get_last_downloaded_file_before_gap
        (["E1", "E2", "E3", "E4", "E5"].map String.toList)
        (["E1", "E2", "E4", "E5"].map String.toList) = some x
      ∧ x ∈ (["E1", "E2", "E4", "E5"].map String.toList) :=
  C9_gap_scan_total_on_overlap _ _ ⟨"E1".toList, by decide, by decide⟩

/-! Helper lemmas about the download loops. -/

theorem feed_download_loop_dry (st : DownloadState) :
    ∀ (l : List RSSEntity) (s : Nat),
      (feed_download_loop true st s l).1 = st
      ∧ (0 < st.limit → (feed_download_loop true st s l).2 = s + l.length)
  | [], s => ⟨rfl, fun _ => rfl⟩
  | e :: rest, s => by
    by_cases hl : st.limit ≤ 0
    · constructor
      · simp [feed_download_loop, if_pos hl]
      · intro hpos
        exact absurd hpos (by omega)
    · have hstep : feed_download_loop true st s (e :: rest)
          = feed_download_loop true st (s + 1) rest := by
        simp [feed_download_loop, if_neg hl]
      rw [hstep]
      refine ⟨(feed_download_loop_dry st rest (s + 1)).1, fun hpos => ?_⟩
      rw [(feed_download_loop_dry st rest (s + 1)).2 hpos]
      simp [List.length_cons]
      omega

theorem feed_download_loop_limit :
    ∀ (l : List RSSEntity) (st : DownloadState) (s : Nat), 0 ≤ st.limit →
      0 ≤ (feed_download_loop false st s l).1.limit
      ∧ (feed_download_loop false st s l).1.limit
          + (feed_download_loop false st s l).1.log.length
        = st.limit + st.log.length
  | [], st, s, h => ⟨h, rfl⟩
  | e :: rest, st, s, h => by
    by_cases hl : st.limit ≤ 0
    · constructor
      · simp [feed_download_loop, if_pos hl, h]
      · simp [feed_download_loop, if_pos hl]
    · have hstep : feed_download_loop false st s (e :: rest)
          = feed_download_loop false
              { limit := st.limit - 1, log := st.log ++ [e] } (s + 1) rest := by
        simp [feed_download_loop, if_neg hl]
      rw [hstep]
      have h' : (0 : Int) ≤ st.limit - 1 := by omega
      obtain ⟨h1, h2⟩ := feed_download_loop_limit rest
        { limit := st.limit - 1, log := st.log ++ [e] } (s + 1) h'
      refine ⟨h1, ?_⟩
      rw [h2]
      simp [List.length_append]
      try omega

theorem run_feeds_stats_length (dry : Bool) :
    ∀ (feeds : List (List RSSEntity)) (st : DownloadState),
      (run_feeds dry st feeds).2.length = feeds.length
  | [], _ => rfl
  | missing :: rest, st => by
    simp only [run_feeds, List.length_cons]
    rw [run_feeds_stats_length dry rest]

theorem run_feeds_limit :
    ∀ (feeds : List (List RSSEntity)) (st : DownloadState), 0 ≤ st.limit →
      0 ≤ (run_feeds false st feeds).1.limit
      ∧ (run_feeds false st feeds).1.limit
          + (run_feeds false st feeds).1.log.length
        = st.limit + st.log.length
  | [], st, h => ⟨h, rfl⟩
  | missing :: rest, st, h => by
    simp only [run_feeds]
    obtain ⟨h1, h2⟩ := feed_download_loop_limit missing.reverse st 0 h
    obtain ⟨h3, h4⟩ := run_feeds_limit rest
      (feed_download_loop false st 0 missing.reverse).1 h1
    refine ⟨h3, ?_⟩
    rw [process_podcast_feed_downloads] at *
    omega

/-- C3: over a whole run the number of actual downloads performed (the length
of the transfer log) never exceeds a nonnegative configured downloads_limit,
every feed is still visited (one statistics entry per feed); concretely, with
limit one and two feeds of two missing episodes each, exactly one download
happens and both feeds are visited, the second without downloading. -/
theorem C3_downloads_limit_enforced :
    (∀ (feeds : List (List RSSEntity)) (L : Int), 0 ≤ L →
      ((run_feeds false { limit := L, log := [] } feeds).1.log.length : Int) ≤ L
      ∧ (run_feeds false { limit := L, log := [] } feeds).2.length = feeds.length)
    ∧ (run_feeds false { limit := 1, log := [] }
        [[epE2, epE1], [epE4, epE3]]).1.log = [epE1]
    ∧ (run_feeds false { limit := 1, log := [] }
        [[epE2, epE1], [epE4, epE3]]).2 = [1, 0] := by
  refine ⟨?_, by rfl, by rfl⟩
  intro feeds L hL
  obtain ⟨h1, h2⟩ := run_feeds_limit feeds { limit := L, log := [] } hL
  refine ⟨?_, run_feeds_stats_length false feeds _⟩
  simp only [List.length_nil] at h2
  omega

/-- Witness for C3: the general bound applied at the concrete two-feed run. -/
theorem C3_downloads_limit_enforced_witness :
    ((run_feeds false { limit := 1, log := [] }
        [[epE2, epE1], [epE4, epE3]]).1.log.length : Int) ≤ 1
    ∧ (run_feeds false { limit := 1, log := [] }
        [[epE2, epE1], [epE4, epE3]]).2.length = 2 :=
  C3_downloads_limit_enforced.1 [[epE2, epE1], [epE4, epE3]] 1 (by decide)

/-- C10: in dry-run mode processing a feed leaves the download state (and in
particular the global downloads_limit counter) unchanged, while the per-feed
downloads statistic still counts one per episode that would have been
downloaded (every missing episode, the limit being positive and never
decremented in dry-run mode). -/
theorem C10_dry_run_preserves_limit (st : DownloadState)
    (missing_files_links : List RSSEntity) :
    (process_podcast_feed_downloads true st missing_files_links).1 = st
    ∧ (0 < st.limit →
      (process_podcast_feed_downloads true st missing_files_links).2
        = missing_files_links.length) := by
  rw [process_podcast_feed_downloads]
  refine ⟨(feed_download_loop_dry st missing_files_links.reverse 0).1,
    fun hpos => ?_⟩
  rw [(feed_download_loop_dry st missing_files_links.reverse 0).2 hpos]
  simp

/-- Witness for C10 at a concrete dry run with three missing episodes. -/
theorem C10_dry_run_preserves_limit_witness :
    (process_podcast_feed_downloads true { limit := 5, log := [] }
        [epE3, epE2, epE1]).1 = { limit := 5, log := [] }
    ∧ (process_podcast_feed_downloads true { limit := 5, log := [] }
        [epE3, epE2, epE1]).2 = 3 := by
  obtain ⟨h1, h2⟩ := C10_dry_run_preserves_limit { limit := 5, log := [] }
    [epE3, epE2, epE1]
  exact ⟨h1, h2 (by decide)⟩

/-! Helper lemmas about dictionary merging. -/

theorem dictGet?_cons {V : Type} (a : String) (b : V) (t : PyDict V) (k : String) :
    dictGet? ((a, b) :: t) k = if a = k then some b else dictGet? t k := by
  by_cases h : a = k
  · simp [dictGet?, List.find?_cons, h]
  · simp [dictGet?, List.find?_cons, h]

theorem dictGet?_eq_none_of_not_mem {V : Type} {d : PyDict V} {k : String}
    (h : k ∉ d.map Prod.fst) : dictGet? d k = none := by
  have : d.find? (fun p => p.1 == k) = none := by
    rw [List.find?_eq_none]
    intro x hx hbeq
    exact h (List.mem_map.mpr ⟨x, hx, by simpa using hbeq⟩)
  simp [dictGet?, this]

theorem dictGet?_dictSet {V : Type} :
    ∀ (d : PyDict V) (k : String) (v : V) (k' : String),
      dictGet? (dictSet d k v) k' = if k = k' then some v else dictGet? d k'
  | [], k, v, k' => by simp [dictSet, dictGet?_cons, dictGet?]
  | (k0, v0) :: rest, k, v, k' => by
    by_cases h0 : k0 = k
    · subst h0
      have hset : dictSet ((k0, v0) :: rest) k0 v = (k0, v) :: rest := by
        simp [dictSet]
      rw [hset, dictGet?_cons, dictGet?_cons]
      by_cases h1 : k0 = k'
      · rw [if_pos h1, if_pos h1]
      · simp only [if_neg h1]
    · have hset : dictSet ((k0, v0) :: rest) k v = (k0, v0) :: dictSet rest k v := by
        simp [dictSet, h0]
      rw [hset, dictGet?_cons, dictGet?_cons]
      by_cases h1 : k0 = k'
      · have hkk : ¬ k = k' := fun h => h0 (h1.trans h.symm)
        rw [if_pos h1, if_pos h1, if_neg hkk]
      · simp only [if_neg h1]
        exact dictGet?_dictSet rest k v k'

theorem dictUpdate_cons {V : Type} (d : PyDict V) (k0 : String) (v0 : V)
    (o : PyDict V) :
    dictUpdate d ((k0, v0) :: o) = dictUpdate (dictSet d k0 v0) o := rfl

theorem dictGet?_dictUpdate {V : Type} :
    ∀ (o d : PyDict V) (k : String), (o.map Prod.fst).Nodup →
      dictGet? (dictUpdate d o) k = (dictGet? o k).or (dictGet? d k)
  | [], d, k, _ => by simp [dictUpdate, dictGet?, Option.none_or]
  | (k0, v0) :: o', d, k, hnd => by
    rw [List.map_cons] at hnd
    obtain ⟨hk0, hnd'⟩ := List.nodup_cons.mp hnd
    rw [dictUpdate_cons, dictGet?_dictUpdate o' (dictSet d k0 v0) k hnd',
      dictGet?_dictSet, dictGet?_cons]
    by_cases h : k0 = k
    · subst h
      rw [if_pos rfl, if_pos rfl, dictGet?_eq_none_of_not_mem hk0]
      simp [Option.none_or]
    · rw [if_neg h, if_neg h]

/-- C5 counterexample: with default, file, command line and per-feed
dictionaries all binding the download_delay key (the command line giving 2, the
feed giving 3), the effective per-feed value is the per-feed one, not the
command line one; and the downloads_limit key, absent from the command line --
hence present in vars(args) with value None -- clobbers the file value 7 with
None in the merged global configuration.  This refutes the claimed precedence
CLI over per-feed and the claim that keys absent from the CLI do not
override. -/
theorem C5_counterexample :
    (dictGet? (effective_feed_configuration
        [("download_delay", some (0 : Int)), ("downloads_limit", some 99)]
        [("download_delay", some 5), ("downloads_limit", some 7)]
        [("download_delay", some 2), ("downloads_limit", none)]
        [("download_delay", some 3)]) "download_delay" = some (some 3)
      ∧ some (some (3 : Int)) ≠ some (some (2 : Int)))
    ∧ (dictGet? (effective_feed_configuration
        [("download_delay", some (0 : Int)), ("downloads_limit", some 99)]
        [("download_delay", some 5), ("downloads_limit", some 7)]
        [("download_delay", some 2), ("downloads_limit", none)]
        [("download_delay", some 3)]) "downloads_limit" = some none
      ∧ some (none : Option Int) ≠ some (some (7 : Int))) := by
  refine ⟨⟨by rfl, by simp⟩, ⟨by rfl, by simp⟩⟩

/-- C5 amended: the layered merge gives the precedence per-feed over CLI
namespace over configuration file over defaults, where the CLI namespace is
the full vars(args) dictionary -- including None entries for options not
given -- so any key declared by the parser overrides file values even when the
option is absent from the command line. -/
theorem C5_precedence {V : Type}
    (defaults config_file cli_vars rss_source : PyDict V) (k : String)
    (h1 : (config_file.map Prod.fst).Nodup)
    (h2 : (cli_vars.map Prod.fst).Nodup)
    (h3 : (rss_source.map Prod.fst).Nodup) :
    dictGet? (effective_feed_configuration defaults config_file cli_vars rss_source) k
      = ((dictGet? rss_source k).or
          ((dictGet? cli_vars k).or
            ((dictGet? config_file k).or (dictGet? defaults k)))) := by
  have hm : effective_feed_configuration defaults config_file cli_vars rss_source
      = dictUpdate (dictUpdate (dictUpdate defaults config_file) cli_vars) rss_source := rfl
  rw [hm, dictGet?_dictUpdate rss_source _ k h3, dictGet?_dictUpdate cli_vars _ k h2,
    dictGet?_dictUpdate config_file _ k h1]

/-- Witness for C5 amended at the concrete dictionaries of the counterexample
scenario, for a key bound everywhere. -/
theorem C5_precedence_witness :
    dictGet? (effective_feed_configuration
        [("download_delay", some (0 : Int))]
        [("download_delay", some 5)]
        [("download_delay", some 2)]
        [("download_delay", some 3)]) "download_delay"
      = some (some 3) := by
  rw [C5_precedence
    [("download_delay", some (0 : Int))]
    [("download_delay", some 5)]
    [("download_delay", some 2)]
    [("download_delay", some 3)] "download_delay"
    (by decide) (by decide) (by decide)]
  rfl

/-! Helper lemmas about the heap-level merge. -/

theorem merge_parameters_collection_cons {V : Type} (d : PyDict V)
    (o : PyDict V) (rest : List (PyDict V)) :
    merge_parameters_collection d (o :: rest)
      = merge_parameters_collection (dictUpdate d o) rest := rfl

theorem mergeHeapFold {V : Type} (h : Heap V) :
    ∀ (addrs : List Nat) (hh : Heap V),
      hh.length = h.length + 1 →
      (∀ a, a < h.length → hh[a]? = h[a]?) →
      (addrs.foldl
          (fun hh a => heapSet hh h.length
            (dictUpdate (heapGetD hh h.length) (heapGetD hh a))) hh).length
        = h.length + 1
      ∧ (∀ a, a < h.length →
          (addrs.foldl
            (fun hh a => heapSet hh h.length
              (dictUpdate (heapGetD hh h.length) (heapGetD hh a))) hh)[a]?
          = h[a]?)
      ∧ ((∀ a ∈ addrs, a < h.length) →
          heapGetD (addrs.foldl
            (fun hh a => heapSet hh h.length
              (dictUpdate (heapGetD hh h.length) (heapGetD hh a))) hh) h.length
          = merge_parameters_collection (heapGetD hh h.length)
              (addrs.map (heapGetD h)))
  | [], hh, hlen, hpres => ⟨hlen, hpres, fun _ => rfl⟩
  | a0 :: rest, hh, hlen, hpres => by
    simp only [List.foldl_cons]
    set hh1 := heapSet hh h.length
      (dictUpdate (heapGetD hh h.length) (heapGetD hh a0)) with hh1_def
    have hlen1 : hh1.length = h.length + 1 := by
      rw [hh1_def, heapSet, List.length_set, hlen]
    have hpres1 : ∀ a, a < h.length → hh1[a]? = h[a]? := by
      intro a ha
      rw [hh1_def, heapSet, List.getElem?_set_ne (by omega)]
      exact hpres a ha
    obtain ⟨r1, r2, r3⟩ := mergeHeapFold h rest hh1 hlen1 hpres1
    refine ⟨r1, r2, fun hvalid => ?_⟩
    have ha0 : a0 < h.length := hvalid a0 (List.mem_cons_self a0 rest)
    have hcontent : heapGetD hh1 h.length
        = dictUpdate (heapGetD hh h.length) (heapGetD h a0) := by
      rw [hh1_def, heapSet, heapGetD,
        List.getElem?_set_self (by omega), Option.getD_some]
      rw [show heapGetD hh a0 = heapGetD h a0 from by
        rw [heapGetD, heapGetD, hpres a0 ha0]]
    rw [r3 (fun a ha => hvalid a (List.mem_cons_of_mem a0 ha)), hcontent,
      List.map_cons, merge_parameters_collection_cons]

/-- C8: the value-level merge never mutates its arguments: at the heap level,
merge_parameters_collection allocates a fresh dictionary (its address is the
next free one), every pre-existing heap cell -- the default dictionary and all
override dictionaries included -- is unchanged by the call, and the fresh
dictionary holds exactly the merged key-value pairs of the arguments. -/
theorem C8_merge_does_not_mutate {V : Type} (h : Heap V) (defaultAddr : Nat)
    (otherAddrs : List Nat) :
    (merge_parameters_collection_heap h defaultAddr otherAddrs).2 = h.length
    ∧ (∀ a, a < h.length →
        (merge_parameters_collection_heap h defaultAddr otherAddrs).1[a]? = h[a]?)
    ∧ ((∀ a ∈ otherAddrs, a < h.length) →
        heapGetD (merge_parameters_collection_heap h defaultAddr otherAddrs).1 h.length
          = merge_parameters_collection (heapGetD h defaultAddr)
              (otherAddrs.map (heapGetD h))) := by
  have hlen0 : (h ++ [heapGetD h defaultAddr]).length = h.length + 1 := by
    simp
  have hpres0 : ∀ a, a < h.length → (h ++ [heapGetD h defaultAddr])[a]? = h[a]? := by
    intro a ha
    exact List.getElem?_append_left ha
  obtain ⟨r1, r2, r3⟩ := mergeHeapFold h otherAddrs
    (h ++ [heapGetD h defaultAddr]) hlen0 hpres0
  refine ⟨rfl, r2, fun hvalid => ?_⟩
  have h4 : heapGetD (h ++ [heapGetD h defaultAddr]) h.length
      = heapGetD h defaultAddr := by
    rw [heapGetD, List.getElem?_concat_length, Option.getD_some]
  have h5 := r3 hvalid
  rw [h4] at h5
  exact h5

/-- Witness for C8 at a concrete two-cell heap. -/
theorem C8_merge_does_not_mutate_witness :
    (merge_parameters_collection_heap
        [[("a", (1 : Int))], [("a", 2)]] 0 [1]).2 = 2
    ∧ (merge_parameters_collection_heap
        [[("a", (1 : Int))], [("a", 2)]] 0 [1]).1[0]? = some [("a", 1)]
    ∧ heapGetD (merge_parameters_collection_heap
        [[("a", (1 : Int))], [("a", 2)]] 0 [1]).1 2 = [("a", 2)] := by
  obtain ⟨w1, w2, w3⟩ := C8_merge_does_not_mutate
    [[("a", (1 : Int))], [("a", 2)]] 0 [1]
  refine ⟨w1, (w2 0 (by decide)).trans (by rfl), (w3 ?_).trans (by rfl)⟩
  intro a ha
  simp only [List.mem_singleton] at ha
  subst ha
  decide

/-- C7: resolving the download_since_last_run policy fails with an error
exactly when no reference date is available, and with a reference date it
returns the filter keeping exactly the episodes whose calendar date is on or
after the reference calendar date -- the time of day is ignored, so a same-day
episode is included. -/
theorem C7_since_last_run (last_run_date : Option PyDateTime)
    (local_time : PyDateTime) :
    ((∃ msg, configuration_to_function_on_empty_directory
        "download_since_last_run".toList last_run_date local_time
        = Except.error msg) ↔ last_run_date = none)
    ∧ (∀ d, last_run_date = some d →
        ∃ flt, configuration_to_function_on_empty_directory
            "download_since_last_run".toList last_run_date local_time
          = Except.ok flt
          ∧ ∀ (es : List RSSEntity) (e : RSSEntity),
              e ∈ flt es ↔ e ∈ es ∧ is_entity_newer d e = true)
    ∧ (∀ (ref : PyDateTime) (ent : RSSEntity),
        pyDate ent.published_date = pyDate ref →
        is_entity_newer ref ent = true) := by
  have hcfg : configuration_to_function_on_empty_directory
      "download_since_last_run".toList last_run_date local_time
      = match last_run_date with
        | some d => Except.ok (List.filter (fun e => is_entity_newer d e))
        | none => Except.error ("Missing last run marker file".toList) := by
    cases last_run_date <;> rfl
  refine ⟨?_, ?_, ?_⟩
  · cases last_run_date with
    | none => exact ⟨fun _ => rfl, fun _ => ⟨_, by rw [hcfg]⟩⟩
    | some d =>
      constructor
      · rintro ⟨msg, hmsg⟩
        rw [hcfg] at hmsg
        cases hmsg
      · rintro h
        cases h
  · rintro d rfl
    refine ⟨_, by rw [hcfg], ?_⟩
    intro es e
    simp [List.mem_filter]
  · intro ref ent h
    rw [is_entity_newer, h]
    simp [dateLeB]

/-- Witness for C7: a same-day episode passes the date filter, and resolving
the policy with no reference date yields an error. -/
theorem C7_since_last_run_witness :
    is_entity_newer (PyDateTime.mk 2023 6 1 9 30 0) (mkEpisode "S" 1) = true
    ∧ ∃ msg, configuration_to_function_on_empty_directory
        "download_since_last_run".toList none
        { year := 2023, month := 6, day := 6 } = Except.error msg := by
  constructor
  · exact (C7_since_last_run (some (PyDateTime.mk 2023 6 1 9 30 0))
      { year := 2023, month := 6, day := 6 }).2.2
      (PyDateTime.mk 2023 6 1 9 30 0) (mkEpisode "S" 1) rfl
  · exact ((C7_since_last_run none { year := 2023, month := 6, day := 6 }).1).mpr rfl

/-- C1 counterexample: in the gap scenario (feed rendering newest-first to
E5..E1, disk holding E5, E4, E2, E1) with fill_up_gaps false, the selection
boundary is E5 -- not E1 as claimed -- and the missing list is empty -- not
the set containing E2, E3, E4 and E5 -- since E2 is not a member of it. -/
theorem C1_counterexample :
    process_podcast_feed_selection "%title%".toList 255 "download_last".toList
        none { year := 2023, month := 6, day := 6 } false gapFeedEntries
        gapDiskFiles
      = Except.ok (some "E5".toList, ([] : List RSSEntity))
    ∧ "E5".toList ≠ "E1".toList
    ∧ epE2 ∉ ([] : List RSSEntity) := by
  exact ⟨rfl, by decide, by simp⟩

/-- C1 amended: with fill_up_gaps false the boundary is the last element of the
oldest-first on-disk subsequence of the feed -- the newest downloaded file E5,
not the oldest one -- and the missing list is therefore empty, because the
newest-first take-while stops immediately at E5. -/
theorem C1_selection_no_fill :
    process_podcast_feed_selection "%title%".toList 255 "download_last".toList
        none { year := 2023, month := 6, day := 6 } false gapFeedEntries
        gapDiskFiles
      = Except.ok (some "E5".toList, ([] : List RSSEntity))
    ∧ ((gapFeedEntries.map
          (fun e => limit_file_name 255 (file_template_to_file_name
            "%title%".toList e))).reverse.filter
        (fun f => decide (f ∈ gapDiskFiles))).getLast? = some "E5".toList := by
  exact ⟨rfl, rfl⟩

/-! Helper lemmas about template rendering. -/

theorem strftime_no_percent (dt : PyDateTime) :
    ∀ (F : PyStr), (∀ c ∈ F, c ≠ '%') → strftime dt F = F
  | [], _ => rfl
  | [c], h => by
    have hc : c ≠ '%' := h c (List.mem_cons_self c [])
    simp only [strftime, if_neg hc]
  | c :: c2 :: rest, h => by
    have hc : c ≠ '%' := h c (List.mem_cons_self c (c2 :: rest))
    simp only [strftime, if_neg hc]
    rw [strftime_no_percent dt (c2 :: rest)
      (fun x hx => h x (List.mem_cons_of_mem c hx))]

theorem takeWhile_no_percent :
    ∀ (F : PyStr) (rest : PyStr), (∀ c ∈ F, c ≠ '%') →
      (F ++ '%' :: rest).takeWhile (fun c => !(c == '%')) = F
  | [], rest, _ => by simp [List.takeWhile_cons]
  | c :: F', rest, h => by
    have hc : c ≠ '%' := h c (List.mem_cons_self c F')
    rw [List.cons_append, List.takeWhile_cons]
    simp only [hc, beq_iff_eq, if_pos, Bool.not_eq_true']
    rw [takeWhile_no_percent F' rest (fun x hx => h x (List.mem_cons_of_mem c hx))]
    simp [hc]

theorem matchDateGroup_token (F S : PyStr) (hne : F ≠ [])
    (hnp : ∀ c ∈ F, c ≠ '%') :
    matchDateGroup (dateTokenHead ++ (F ++ '%' :: S)) = some F := by
  have hpre : dateTokenHead.isPrefixOf (dateTokenHead ++ (F ++ '%' :: S)) = true :=
    List.isPrefixOf_iff_prefix.mpr (List.prefix_append _ _)
  have hdrop : (dateTokenHead ++ (F ++ '%' :: S)).drop dateTokenHead.length
      = F ++ '%' :: S := List.drop_left _ _
  have htw : (F ++ '%' :: S).takeWhile (fun c => !(c == '%')) = F :=
    takeWhile_no_percent F S hnp
  rw [matchDateGroup, if_pos hpre]
  simp only [hdrop, htw]
  rw [if_pos (show F ≠ [] ∧ F.length < (F ++ '%' :: S).length from
    ⟨hne, by simp [List.length_append]⟩)]

theorem matchDateGroup_cons_ne {c : Char} (hc : c ≠ '%') (t : PyStr) :
    matchDateGroup (c :: t) = none := by
  rw [matchDateGroup, if_neg]
  intro hcontra
  obtain ⟨r, hr⟩ := List.isPrefixOf_iff_prefix.mp hcontra
  rw [show dateTokenHead = '%' :: "publish_date:".toList from rfl,
    List.cons_append] at hr
  injection hr with h1 _
  exact hc h1.symm

theorem substDateTokensGo_nil (dt : PyDateTime) (fuel : Nat) :
    substDateTokensGo dt fuel [] = [] := by
  cases fuel <;> rfl

theorem substDateTokensGo_no_token (dt : PyDateTime) :
    ∀ (fuel : Nat) (s : PyStr), (∀ c ∈ s, c ≠ '%') →
      substDateTokensGo dt fuel s = s
  | fuel, [], _ => by cases fuel <;> rfl
  | 0, c :: rest, _ => rfl
  | fuel + 1, c :: rest, h => by
    have hc : c ≠ '%' := h c (List.mem_cons_self c rest)
    simp only [substDateTokensGo, matchDateGroup_cons_ne hc]
    rw [substDateTokensGo_no_token dt fuel rest
      (fun x hx => h x (List.mem_cons_of_mem c hx))]

theorem substDateTokensGo_skip (dt : PyDateTime) :
    ∀ (P : PyStr) (f : Nat) (rest : PyStr), (∀ c ∈ P, c ≠ '%') →
      substDateTokensGo dt (P.length + f) (P ++ rest)
        = P ++ substDateTokensGo dt f rest
  | [], f, rest, _ => by simp
  | c :: P', f, rest, h => by
    have hc : c ≠ '%' := h c (List.mem_cons_self c P')
    have hll : (c :: P').length + f = (P'.length + f) + 1 := by
      simp [List.length_cons]
      omega
    rw [List.cons_append, hll]
    simp only [substDateTokensGo, matchDateGroup_cons_ne hc]
    rw [substDateTokensGo_skip dt P' f rest
      (fun x hx => h x (List.mem_cons_of_mem c hx)), List.cons_append]

theorem substDateTokensGo_token (dt : PyDateTime) (F : PyStr) (fuel : Nat)
    (S : PyStr) (hne : F ≠ []) (hnp : ∀ c ∈ F, c ≠ '%') :
    substDateTokensGo dt (fuel + 1) (dateTokenHead ++ (F ++ '%' :: S))
      = strftime dt F ++ substDateTokensGo dt fuel S := by
  have hs : dateTokenHead ++ (F ++ '%' :: S)
      = '%' :: ("publish_date:".toList ++ (F ++ '%' :: S)) := rfl
  rw [hs]
  simp only [substDateTokensGo]
  rw [show ('%' :: ("publish_date:".toList ++ (F ++ '%' :: S)) : PyStr)
      = dateTokenHead ++ (F ++ '%' :: S) from rfl]
  rw [matchDateGroup_token F S hne hnp]
  have hd : (dateTokenHead ++ (F ++ '%' :: S)).drop
      (dateTokenHead.length + F.length + 1) = S := by
    rw [show dateTokenHead ++ (F ++ '%' :: S)
        = ((dateTokenHead ++ F) ++ ['%']) ++ S from by simp]
    apply List.drop_left'
    simp [List.length_append]
    omega
  show strftime dt F ++ substDateTokensGo dt fuel
      ((dateTokenHead ++ (F ++ '%' :: S)).drop
        (dateTokenHead.length + F.length + 1))
    = strftime dt F ++ substDateTokensGo dt fuel S
  rw [hd]

theorem pyReplaceGo_no_occur (pat rep : PyStr) (hpct : '%' ∈ pat) :
    ∀ (fuel : Nat) (s : PyStr), (∀ c ∈ s, c ≠ '%') →
      pyReplaceGo pat rep fuel s = s
  | fuel, [], _ => by cases fuel <;> rfl
  | 0, c :: rest, _ => rfl
  | fuel + 1, c :: rest, h => by
    have hcond : ¬ (pat ≠ [] ∧ pat.isPrefixOf (c :: rest)) := by
      rintro ⟨_, hpre⟩
      have hsub := (List.isPrefixOf_iff_prefix.mp hpre).subset
      exact h '%' (hsub hpct) rfl
    rw [pyReplaceGo, if_neg hcond]
    rw [pyReplaceGo_no_occur pat rep hpct fuel rest
      (fun x hx => h x (List.mem_cons_of_mem c hx))]

theorem pyReplace_no_occur (s pat rep : PyStr) (hpct : '%' ∈ pat)
    (h : ∀ c ∈ s, c ≠ '%') : pyReplace s pat rep = s :=
  pyReplaceGo_no_occur pat rep hpct s.length s h

/-- C4 counterexample: rendering the template holding the single token
%publish_date:$Y-$m-$d% for an episode published on 2023-06-01 yields the
literal text $Y-$m-$d, not the formatted date 2023-06-01: the regular
expression passes the format group to strftime verbatim and nothing ever
translates the dollar signs into percent signs. -/
theorem C4_counterexample :
    file_template_to_file_name "%publish_date:$Y-$m-$d%".toList
        (mkEpisode "Ep" 1) = "$Y-$m-$d".toList
    ∧ "$Y-$m-$d".toList ≠ "2023-06-01".toList := by
  exact ⟨rfl, by decide⟩

/-- C4 amended: for every episode and every template built from a token
%publish_date:FORMAT% surrounded by arbitrary percent-free text, with a
non-empty FORMAT free of percent signs (in particular every dollar-style
FORMAT such as $Y-$m-$d), rendering replaces the token by strftime applied to
FORMAT verbatim, which -- FORMAT containing no percent-introduced codes -- is
the literal FORMAT text itself, left in place between the surrounding text and
stripped as a whole. -/
theorem C4_date_token_literal (entity : RSSEntity) (P F S : PyStr)
    (hne : F ≠ []) (hP : ∀ c ∈ P, c ≠ '%') (hF : ∀ c ∈ F, c ≠ '%')
    (hS : ∀ c ∈ S, c ≠ '%') :
    file_template_to_file_name (P ++ (dateTokenHead ++ (F ++ '%' :: S))) entity
      = pyStrip (P ++ F ++ S) := by
  have hPFS : ∀ c ∈ P ++ F ++ S, c ≠ '%' := by
    intro c hc
    rcases List.mem_append.mp hc with hc' | hcS
    · rcases List.mem_append.mp hc' with hcP | hcF
      · exact hP c hcP
      · exact hF c hcF
    · exact hS c hcS
  have hflen : (P ++ (dateTokenHead ++ (F ++ '%' :: S))).length
      = P.length + ((14 + F.length + S.length) + 1) := by
    simp [List.length_append, dateTokenHead]
    omega
  have h0 : substDateTokens entity.published_date
      (P ++ (dateTokenHead ++ (F ++ '%' :: S))) = P ++ F ++ S := by
    rw [substDateTokens, hflen, substDateTokensGo_skip _ P _ _ hP,
      substDateTokensGo_token _ F (14 + F.length + S.length) S hne hF,
      substDateTokensGo_no_token _ _ S hS,
      strftime_no_percent entity.published_date F hF, List.append_assoc]
  simp only [file_template_to_file_name]
  rw [h0,
    pyReplace_no_occur (P ++ F ++ S) "%title%".toList _ (by decide) hPFS,
    pyReplace_no_occur (P ++ F ++ S) "%file_name%".toList _ (by decide) hPFS,
    pyReplace_no_occur (P ++ F ++ S) "%file_extension%".toList _ (by decide) hPFS,
    pyReplace_no_occur (P ++ F ++ S) "%publish_date%".toList _ (by decide) hPFS]

/-- Witness for C4 amended: the dollar-year token between plain text renders to
the literal dollar format. -/
theorem C4_date_token_literal_witness :
    file_template_to_file_name
        ("ep-".toList ++ (dateTokenHead ++ ("$Y".toList ++ '%' :: ".mp3".toList)))
        (mkEpisode "W" 2)
      = pyStrip ("ep-".toList ++ "$Y".toList ++ ".mp3".toList) :=
  C4_date_token_literal (mkEpisode "W" 2) "ep-".toList "$Y".toList ".mp3".toList
    (by decide) (by decide) (by decide) (by decide)

/-! Helper lemmas about the rpartition split and truncation. -/

theorem lastSplitOn_none (ch : Char) :
    ∀ (s : PyStr), lastSplitOn ch s = none → ch ∉ s
  | [], _ => List.not_mem_nil ch
  | c :: rest, h => by
    rw [lastSplitOn] at h
    rcases hrest : lastSplitOn ch rest with _ | ⟨b, a⟩
    · rw [hrest] at h
      by_cases hc : c = ch
      · rw [if_pos hc] at h
        cases h
      · rw [if_neg hc] at h
        intro hmem
        rcases List.mem_cons.mp hmem with rfl | hmem'
        · exact hc rfl
        · exact lastSplitOn_none ch rest hrest hmem'
    · rw [hrest] at h
      cases h

theorem lastSplitOn_some (ch : Char) :
    ∀ (s : PyStr) (b a : PyStr), lastSplitOn ch s = some (b, a) →
      s = b ++ ch :: a ∧ ch ∉ a
  | [], b, a, h => by cases h
  | c :: rest, b, a, h => by
    rw [lastSplitOn] at h
    rcases hrest : lastSplitOn ch rest with _ | ⟨b', a'⟩
    · rw [hrest] at h
      by_cases hc : c = ch
      · rw [if_pos hc] at h
        cases h
        exact ⟨by rw [hc, List.nil_append], lastSplitOn_none ch rest hrest⟩
      · rw [if_neg hc] at h
        cases h
    · rw [hrest] at h
      cases h
      obtain ⟨hs, hna⟩ := lastSplitOn_some ch rest _ _ hrest
      exact ⟨by rw [hs, List.cons_append], hna⟩

theorem pyRPartitionDot_spec (s : PyStr) :
    (pyRPartitionDot s = ([], [], s) ∧ '.' ∉ s)
    ∨ (∃ b a, pyRPartitionDot s = (b, ['.'], a) ∧ s = b ++ '.' :: a ∧ '.' ∉ a) := by
  rcases hsplit : lastSplitOn '.' s with _ | ⟨b, a⟩
  · left
    rw [pyRPartitionDot, hsplit]
    exact ⟨rfl, lastSplitOn_none '.' s hsplit⟩
  · right
    obtain ⟨hs, hna⟩ := lastSplitOn_some '.' s b a hsplit
    refine ⟨b, a, ?_, hs, hna⟩
    rw [pyRPartitionDot, hsplit]

/-- C6 counterexample: for the negative limit -1 and the dotless two-character
name ab, the Python slice semantics keep one character, so the result length 1
exceeds the limit; the claimed bound fails for negative integer limits. -/
theorem C6_counterexample :
    limit_file_name (-1) "ab".toList = "a".toList
    ∧ ¬ (((limit_file_name (-1) "ab".toList).length : Int) ≤ -1) := by
  exact ⟨rfl, by decide⟩

/-- C6 amended: for every name and every nonnegative integer limit, the
truncated name has length at most the limit; a name that already fits is
returned unchanged; and when truncation occurs while the extension is present
and fits within the limit, the extension is kept intact as a suffix and the
resulting length equals the limit exactly. -/
theorem C6_truncation (file_name : PyStr) (maximum_length : Int)
    (hlim : 0 ≤ maximum_length) :
    ((limit_file_name maximum_length file_name).length : Int) ≤ maximum_length
    ∧ ((file_name.length : Int) ≤ maximum_length →
        limit_file_name maximum_length file_name = file_name)
    ∧ (((file_name.length : Int) > maximum_length
          ∧ (pyRPartitionDot file_name).2.2 ≠ []
          ∧ (((pyRPartitionDot file_name).2.2.length : Int) ≤ maximum_length)) →
        (∃ pre, limit_file_name maximum_length file_name
            = pre ++ (pyRPartitionDot file_name).2.2)
        ∧ ((limit_file_name maximum_length file_name).length : Int)
            = maximum_length) := by
  by_cases hfit : (file_name.length : Int) ≤ maximum_length
  · have hres : limit_file_name maximum_length file_name = file_name := by
      unfold limit_file_name
      rw [if_pos hfit]
    refine ⟨by rw [hres]; exact hfit, fun _ => hres, ?_⟩
    rintro ⟨hgt, -, -⟩
    omega
  · have hgt : maximum_length < (file_name.length : Int) := not_le.mp hfit
    rcases pyRPartitionDot_spec file_name with ⟨hp, -⟩ | ⟨b, a, hp, hsba, -⟩
    · -- no dot in the name: the extension slot holds the whole name
      have hres : limit_file_name maximum_length file_name
          = file_name.take maximum_length.toNat := by
        unfold limit_file_name
        rw [if_neg hfit]
        simp only [hp]
        rw [if_pos (Or.inr hgt)]
        unfold pySliceUpto
        rw [if_pos hlim]
      have hlen : ((limit_file_name maximum_length file_name).length : Int)
          = maximum_length := by
        rw [hres, List.length_take]
        omega
      refine ⟨le_of_eq hlen, fun hcontra => absurd hcontra hfit, ?_⟩
      rintro ⟨-, -, hle2⟩
      rw [hp] at hle2
      simp only [] at hle2
      omega
    · -- the name splits at the last dot into b and extension a
      by_cases hb1 : a = [] ∨ ((a.length : Int) > maximum_length)
      · -- the extension alone does not fit: hard truncation
        have hres : limit_file_name maximum_length file_name
            = file_name.take maximum_length.toNat := by
          unfold limit_file_name
          rw [if_neg hfit]
          simp only [hp]
          rw [if_pos hb1]
          unfold pySliceUpto
          rw [if_pos hlim]
        have hlen : ((limit_file_name maximum_length file_name).length : Int)
            = maximum_length := by
          rw [hres, List.length_take]
          omega
        refine ⟨le_of_eq hlen, fun hcontra => absurd hcontra hfit, ?_⟩
        rintro ⟨-, hne2, hle2⟩
        rw [hp] at hne2 hle2
        simp only [] at hne2 hle2
        rcases hb1 with h | h
        · exact absurd h hne2
        · omega
      · push_neg at hb1
        obtain ⟨ha_ne, ha_le⟩ := hb1
        have ha_pos : 0 < a.length := List.length_pos.mpr ha_ne
        have hlen_s : file_name.length = b.length + 1 + a.length := by
          rw [hsba]
          simp [List.length_append]
          omega
        by_cases hav : maximum_length - a.length - 1 < 0
        · -- the extension exactly fills the limit
          have ha_eq : (a.length : Int) = maximum_length := by omega
          have hsba' : file_name = (b ++ ['.']) ++ a := by
            rw [hsba]
            simp
          have hres : limit_file_name maximum_length file_name
              = file_name.drop (file_name.length - maximum_length.toNat) := by
            unfold limit_file_name
            rw [if_neg hfit]
            simp only [hp]
            rw [if_neg (by push_neg; exact ⟨ha_ne, ha_le⟩), if_pos hav]
            unfold pySliceFrom
            rw [if_neg (by omega : ¬ (0 : Int) ≤ -maximum_length)]
            congr 1
            omega
          have hdrop : file_name.drop (file_name.length - maximum_length.toNat)
              = a := by
            have hidx : file_name.length - maximum_length.toNat
                = (b ++ ['.']).length := by
              simp [List.length_append]
              omega
            rw [hidx]
            nth_rewrite 1 [hsba']
            exact List.drop_left (b ++ ['.']) a
          have hres2 : limit_file_name maximum_length file_name = a :=
            hres.trans hdrop
          have hlen : ((limit_file_name maximum_length file_name).length : Int)
              = maximum_length := by
            rw [hres2]
            omega
          refine ⟨le_of_eq hlen, fun hcontra => absurd hcontra hfit, ?_⟩
          rintro ⟨-, -, -⟩
          refine ⟨⟨[], ?_⟩, hlen⟩
          rw [hres2, hp, List.nil_append]
        · -- room for a piece of the name plus the intact extension
          have hav' : (0 : Int) ≤ maximum_length - a.length - 1 := by omega
          have hres : limit_file_name maximum_length file_name
              = b.take (maximum_length - a.length - 1).toNat ++ '.' :: a := by
            unfold limit_file_name
            rw [if_neg hfit]
            simp only [hp]
            rw [if_neg (by push_neg; exact ⟨ha_ne, ha_le⟩), if_neg hav]
            unfold pySliceUpto
            rw [if_pos hav']
          have hbtake : (maximum_length - a.length - 1).toNat ≤ b.length := by
            omega
          have hlen : ((limit_file_name maximum_length file_name).length : Int)
              = maximum_length := by
            rw [hres]
            simp [List.length_append, List.length_take]
            omega
          refine ⟨le_of_eq hlen, fun hcontra => absurd hcontra hfit, ?_⟩
          rintro ⟨-, -, -⟩
          refine ⟨⟨b.take (maximum_length - a.length - 1).toNat ++ ['.'], ?_⟩, hlen⟩
          rw [hres, hp]
          simp

/-- Witness for C6 amended: truncating a ten-character name with extension mp3
to eight characters keeps the extension and hits the limit exactly. -/
theorem C6_truncation_witness :
    ((limit_file_name 8 "abcdef.mp3".toList).length : Int) ≤ 8
    ∧ ((∃ pre, limit_file_name 8 "abcdef.mp3".toList
          = pre ++ (pyRPartitionDot "abcdef.mp3".toList).2.2)
      ∧ ((limit_file_name 8 "abcdef.mp3".toList).length : Int) = 8) := by
  obtain ⟨w1, -, w3⟩ := C6_truncation "abcdef.mp3".toList 8 (by decide)
  exact ⟨w1, w3 ⟨by decide, by decide, by decide⟩⟩
